import Mathlib

/-!
Verification of the task-lifecycle engine of the project-mcp repository
(src/lib/tasks.js, src/lib/constants.js, src/tools/index.js,
src/tools/backlog.js) against its natural-language specification.

JavaScript strings are modelled as Lean String values; character-level
operations work on the underlying List Char.  JS whitespace is modelled by
the four common ASCII whitespace characters, and case conversion by ASCII
case mapping, which is exact on the ASCII data these functions handle.
localeCompare is modelled by code-point lexicographic comparison (only its
sign is ever used by the code).  The file system state that the tools read
and write (the todos/ directory, the archive/ directory, BACKLOG.md) is
modelled explicitly as a Store value that the handlers transform.
-/

namespace ProjectMcp

/-- JS whitespace test, restricted to the ASCII whitespace characters. -/
def isWsChar (c : Char) : Bool :=
  c = ' ' || c = '\t' || c = '\r' || c = '\n'

/-- Model of String.prototype.trim on the character list. -/
def jsTrimChars (l : List Char) : List Char :=
  ((l.dropWhile isWsChar).reverse.dropWhile isWsChar).reverse

/-- ASCII upper-casing of one character (model of toUpperCase). -/
def jsUpperChar (c : Char) : Char :=
  if 'a' ≤ c ∧ c ≤ 'z' then Char.ofNat (c.toNat - 32) else c

/-- ASCII lower-casing of one character (model of toLowerCase). -/
def jsLowerChar (c : Char) : Char :=
  if 'A' ≤ c ∧ c ≤ 'Z' then Char.ofNat (c.toNat + 32) else c

/-- Model of String.prototype.toUpperCase. -/
def jsToUpper (s : String) : String := ⟨s.data.map jsUpperChar⟩

/-- Strip an exact leading segment from a character list, returning the
remainder on success. -/
def dropPre : List Char → List Char → Option (List Char)
  | [], rest => some rest
  | _ :: _, [] => none
  | p :: ps, c :: cs => if p = c then dropPre ps cs else none

/-- Strip an exact trailing segment from a character list. -/
def dropSuf (suf l : List Char) : Option (List Char) :=
  (dropPre suf.reverse l.reverse).map List.reverse

/-- Sign-level model of localeCompare for the ASCII strings the code
compares: code-point lexicographic three-way comparison. -/
def cmpChars : List Char → List Char → Int
  | [], [] => 0
  | [], _ :: _ => -1
  | _ :: _, [] => 1
  | a :: as, b :: bs => if a = b then cmpChars as bs else if a < b then -1 else 1

/-- Numeric value of an ASCII digit character. -/
def digitVal (c : Char) : Nat := c.toNat - 48

/-- ASCII decimal digit test (the regex class of the digit escape). -/
def isDigitChar (c : Char) : Bool := 48 ≤ c.toNat && c.toNat ≤ 57

/-- Model of parseInt with radix 10 on an all-digit string. -/
def parseDigits (l : List Char) : Nat :=
  l.foldl (fun a c => a * 10 + digitVal c) 0

/-- Decimal digits of a natural number, least significant first, with
explicit fuel so the definition is structural. -/
def decDigitsRev (fuel n : Nat) : List Nat :=
  match fuel with
  | 0 => []
  | fuel + 1 => if n = 0 then [] else n % 10 :: decDigitsRev fuel (n / 10)

/-- ASCII character of a decimal digit. -/
def digitChar (d : Nat) : Char := Char.ofNat (48 + d)

/-- Decimal representation of a natural number (model of the JS String
conversion of a number). -/
def natDecimalChars (n : Nat) : List Char :=
  if n = 0 then ['0'] else ((decDigitsRev n n).reverse).map digitChar

/-- Model of padStart applied with target length 3 and pad character 0. -/
def padStart3 (l : List Char) : List Char :=
  List.replicate (3 - l.length) '0' ++ l

/-- ASCII letter test, the hypothesis under which the literal splicing of
the project into the file-name pattern is faithful to the source regex. -/
def isAsciiAlphaChar (c : Char) : Bool :=
  ('a' ≤ c && c ≤ 'z') || ('A' ≤ c && c ≤ 'Z')

/- ### Data model

A Task models the YAML frontmatter object of one task file (the data
object of gray-matter).  Fields that the frontmatter may omit are Options;
for string-valued fields that JS tests for truthiness, an absent value and
the empty string are both falsy, which the truthy test below reflects. -/

/-- The frontmatter data of one task record. -/
structure Task where
  id : String
  title : String := ""
  project : String := ""
  priority : Option String := none
  status : String := "todo"
  owner : String := "unassigned"
  depends_on : Option (List String) := none
  blocked_by : Option (List String) := none
  tags : List String := []
  estimate : Option String := none
  due : Option String := none
  phase : Option String := none
  created : String := ""
  updated : String := ""
  completed : Option String := none
  archived : Option String := none
  deriving DecidableEq

/-- JS truthiness of an optional string field (undefined and the empty
string are falsy). -/
def truthyStr : Option String → Bool
  | none => false
  | some s => !(s == "")

/-- PRIORITY_ORDER from src/lib/constants.js. -/
def PRIORITY_ORDER : List (String × Nat) :=
  [("P0", 0), ("P1", 1), ("P2", 2), ("P3", 3)]

/-- PRIORITY_KEYWORDS from src/lib/constants.js, in object-literal order
(Object.entries iterates string keys in insertion order). -/
def PRIORITY_KEYWORDS : List (String × String) :=
  [("critical", "P0"), ("blocker", "P0"), ("urgent", "P0"),
   ("high", "P1"), ("important", "P1"),
   ("medium", "P2"), ("normal", "P2"),
   ("low", "P3"), ("minor", "P3"), ("nice-to-have", "P3")]

/-- Model of the indexing PRIORITY_ORDER at the priority with default 2:
an absent priority or one outside the table yields 2. -/
def priorityRank (p : Option String) : Nat :=
  match p with
  | none => 2
  | some s =>
    match PRIORITY_ORDER.lookup s with
    | some n => n
    | none => 2

/- ### src/lib/tasks.js -/

/-- Match of one directory entry against the task-file pattern that
getNextTaskId builds for a project: the upper-cased project, a dash, one or
more digits, and the md extension; returns the parsed number.  The project
string is spliced into the pattern literally, which is faithful for
projects made of ASCII letters (see the alphabetic hypothesis on the
theorems below). -/
def matchTaskFile (pU : List Char) (file : List Char) : Option Nat :=
  match dropPre (pU ++ ['-']) file with
  | none => none
  | some rest =>
    match dropSuf ['.', 'm', 'd'] rest with
    | none => none
    | some digits =>
      if digits.isEmpty then none
      else if digits.all isDigitChar then some (parseDigits digits) else none

/-- The maxNum loop of getNextTaskId: the largest numeric suffix of a
matching file name, zero when none matches. -/
def maxTaskNum (pU : List Char) (todosFiles : List String) : Nat :=
  todosFiles.foldl
    (fun m f =>
      match matchTaskFile pU f.data with
      | some n => if m < n then n else m
      | none => m) 0

/-- getNextTaskId from src/lib/tasks.js: scans the file names of the todos
directory only, takes the maximal numeric suffix among files of the
project, and returns the project dash the successor, padded to three
digits.  The catch branch of the source (missing directory) returns the
project dash 001, which coincides with the fold over an empty listing. -/
def getNextTaskId (project : String) (todosFiles : List String) : String :=
  let pU := (jsToUpper project).data
  ⟨pU ++ '-' :: padStart3 (natDecimalChars (maxTaskNum pU todosFiles + 1))⟩

/-- Test of one file name against the loadAllTasks pattern: one or more
uppercase letters, a dash, one or more digits, and the md extension. -/
def isTaskFileName (s : String) : Bool :=
  let l := s.data
  let letters := l.takeWhile (fun c => 'A' ≤ c && c ≤ 'Z')
  let rest := l.drop letters.length
  match rest with
  | '-' :: r2 =>
    let digits := r2.takeWhile isDigitChar
    let tail := r2.drop digits.length
    !letters.isEmpty && !digits.isEmpty && tail = ['.', 'm', 'd']
  | _ => false

/-- One on-disk task file: its file name and its frontmatter data. -/
structure TaskFile where
  name : String
  task : Task
  deriving DecidableEq

/-- A backlog document, modelled as its list of lines. -/
abbrev BacklogLines := List String

/-- The file-system state the task tools read and write. -/
structure Store where
  todos : List TaskFile := []
  archive : List TaskFile := []
  backlog : Option BacklogLines := none
  deriving DecidableEq

/-- loadAllTasks from src/lib/tasks.js: reads the todos directory only
(never the archive), keeping files whose name matches the task-file
pattern. -/
def loadAllTasks (st : Store) : List Task :=
  (st.todos.filter (fun f => isTaskFileName f.name)).map (fun f => f.task)

/-- Lookup in the Map that areDependenciesMet builds from the task list:
a later entry with the same id overwrites an earlier one, so the lookup
returns the last task carrying the id. -/
def taskMapGet (allTasks : List Task) (id : String) : Option Task :=
  (allTasks.filter (fun t => t.id == id)).getLast?

/-- areDependenciesMet from src/lib/tasks.js. -/
def areDependenciesMet (task : Task) (allTasks : List Task) : Bool :=
  match task.depends_on with
  | none => true
  | some deps =>
    if deps.isEmpty then true
    else deps.all (fun depId =>
      match taskMapGet allTasks depId with
      | some dep => dep.status == "done"
      | none => false)

/-- The comparator of sortTasksByPriority from src/lib/tasks.js, returning
the sign-relevant integer. -/
def taskCompare (a b : Task) : Int :=
  if a.status = "in_progress" ∧ ¬ b.status = "in_progress" then -1
  else if b.status = "in_progress" ∧ ¬ a.status = "in_progress" then 1
  else
    let aPri := priorityRank a.priority
    let bPri := priorityRank b.priority
    if ¬ aPri = bPri then (aPri : Int) - (bPri : Int)
    else if truthyStr a.due ∧ truthyStr b.due then
      cmpChars (a.due.getD "").data (b.due.getD "").data
    else if truthyStr a.due then -1
    else if truthyStr b.due then 1
    else cmpChars a.id.data b.id.data

/-- Status component of the sort key: in-progress first. -/
def sKey (t : Task) : Nat := if t.status = "in_progress" then 0 else 1

/-- Due-date-presence component of the sort key: a (truthy) due date
first. -/
def dKey (t : Task) : Nat := if truthyStr t.due then 0 else 1

/-- Final string component of the sort key: the due date when both sides
have one, the id otherwise. -/
def tKey (t : Task) : List Char :=
  if truthyStr t.due then (t.due.getD "").data else t.id.data

/-- The non-strict order induced by the comparator. -/
def taskLE (a b : Task) : Prop := taskCompare a b ≤ 0

instance : DecidableRel taskLE := fun a b =>
  inferInstanceAs (Decidable (taskCompare a b ≤ 0))

/-- sortTasksByPriority from src/lib/tasks.js.  Array.prototype.sort is
required to be stable since ES2019 and the comparator is consistent, so
the result is the stable order, which insertion sort by the induced
non-strict order computes. -/
def sortTasksByPriority (tasks : List Task) : List Task :=
  tasks.insertionSort taskLE

/- ### src/tools/index.js : get_next_task and update_task -/

/-- Arguments of get_next_task; an absent or empty owner or project filter
is falsy in JS, modelled as none. -/
structure NextArgs where
  owner : Option String := none
  project : Option String := none
  include_blocked : Bool := false
  limit : Nat := 5

/-- The candidate pipeline of getNextTask in src/tools/index.js: filter
out done tasks, blocked tasks unless included, tasks failing the owner or
project filter, and tasks whose dependencies are not met; then sort and
truncate. -/
def getNextTaskCandidates (args : NextArgs) (allTasks : List Task) : List Task :=
  let candidates := allTasks.filter (fun task =>
    !(task.status == "done") &&
    (args.include_blocked || !(task.status == "blocked")) &&
    (match args.owner with
     | some o => task.owner == o
     | none => true) &&
    (match args.project with
     | some p => task.project == jsToUpper p
     | none => true) &&
    areDependenciesMet task allTasks)
  (sortTasksByPriority candidates).take args.limit

/-- Arguments of update_task other than the id; none models an argument
that was not supplied (undefined). -/
structure UpdateArgs where
  title : Option String := none
  owner : Option String := none
  priority : Option String := none
  status : Option String := none
  estimate : Option String := none
  due : Option String := none
  depends_on : Option (List String) := none
  blocked_by : Option (List String) := none
  tags : Option (List String) := none

/-- Title block of updateTask. -/
def upTitle (u : UpdateArgs) (t : Task) : Task :=
  match u.title with | some v => { t with title := v } | none => t

/-- Owner block of updateTask. -/
def upOwner (u : UpdateArgs) (t : Task) : Task :=
  match u.owner with | some v => { t with owner := v } | none => t

/-- Priority block of updateTask. -/
def upPriority (u : UpdateArgs) (t : Task) : Task :=
  match u.priority with | some v => { t with priority := some v } | none => t

/-- Status block of updateTask: the status is replaced, and the completed
stamp is written exactly when the new status is done and the old one was
not. -/
def upStatus (u : UpdateArgs) (today : String) (t : Task) : Task :=
  match u.status with
  | some v =>
    { t with status := v,
             completed := if v = "done" ∧ ¬ t.status = "done" then some today
               else t.completed }
  | none => t

/-- Estimate block of updateTask. -/
def upEstimate (u : UpdateArgs) (t : Task) : Task :=
  match u.estimate with | some v => { t with estimate := some v } | none => t

/-- Due block of updateTask. -/
def upDue (u : UpdateArgs) (t : Task) : Task :=
  match u.due with | some v => { t with due := some v } | none => t

/-- Dependency block of updateTask. -/
def upDepends (u : UpdateArgs) (t : Task) : Task :=
  match u.depends_on with | some v => { t with depends_on := some v } | none => t

/-- Blocked-by block of updateTask. -/
def upBlocked (u : UpdateArgs) (t : Task) : Task :=
  match u.blocked_by with | some v => { t with blocked_by := some v } | none => t

/-- Tags block of updateTask. -/
def upTags (u : UpdateArgs) (t : Task) : Task :=
  match u.tags with | some v => { t with tags := v } | none => t

/-- The frontmatter mutation of updateTask in src/tools/index.js, applied
in source order: title, owner, priority, status (stamping completed on a
transition into done from a different status), estimate, due, depends_on,
blocked_by, tags, and finally the updated stamp.  The body-section edits
of the handler (description, subtasks) operate on the markdown body only
and never touch these frontmatter fields. -/
def applyUpdates (u : UpdateArgs) (today : String) (t : Task) : Task :=
  { upTags u (upBlocked u (upDepends u (upDue u (upEstimate u
      (upStatus u today (upPriority u (upOwner u (upTitle u t))))))))
    with updated := today }

/- ### Auxiliary search primitive and cross-store id presence -/

/-- Substring test on character lists (model of String.prototype.includes
and of the global scans of getExistingTaskIds). -/
def hasInfix (pat : List Char) : List Char → Bool
  | [] => (dropPre pat []).isSome
  | c :: cs => (dropPre pat (c :: cs)).isSome || hasInfix pat cs

/-- Presence of an id in any of the three stores, in the sense of the
scans of getExistingTaskIds in src/lib/tasks.js: a file of that name in
the todos directory, a file of that name in the archive directory, or a
bold occurrence of the id in BACKLOG.md. -/
def idPresentInStores (st : Store) (id : String) : Bool :=
  st.todos.any (fun f => f.name == id ++ ".md") ||
  st.archive.any (fun f => f.name == id ++ ".md") ||
  (match st.backlog with
   | none => false
   | some lines => lines.any (fun l => hasInfix ("**" ++ id ++ "**").data l.data))

/- ### src/tools/backlog.js : promote_task

The promote handler locates the first backlog line matching the anchored
pattern dash box bold-id colon, captured as a lazily-matched title
followed by an optional bracketed tag list and an optional parenthesised
phase.  The captured pieces are reconstructed here by the deterministic
equivalent of the backtracking search: the shortest title for which the
remainder of the line parses as the optional groups followed by the end of
the line, with a present group preferred over an absent one. -/

/-- Parse of an optional bracket group then an optional paren group then
end of line, as the backlog-line regex tries them: returns the bracket
content and the paren content on success. -/
def tailMatch (l : List Char) : Option (Option (List Char) × Option (List Char)) :=
  let afterWs := l.dropWhile isWsChar
  let tryParen : List Char → Option (List Char) := fun s =>
    let t := s.dropWhile isWsChar
    match t with
    | '(' :: rest =>
      let content := rest.takeWhile (fun c => !(c = ')'))
      let after := rest.drop content.length
      match after with
      | ')' :: tail => if content.isEmpty || !tail.isEmpty then none else some content
      | _ => none
    | _ => none
  let bracketPart : Option (List Char × List Char) :=
    match afterWs with
    | '[' :: rest =>
      let content := rest.takeWhile (fun c => !(c = ']'))
      let after := rest.drop content.length
      match after with
      | ']' :: tail => if content.isEmpty then none else some (content, tail)
      | _ => none
    | _ => none
  match bracketPart with
  | some (tags, tail) =>
    if tail.isEmpty then some (some tags, none)
    else
      match tryParen tail with
      | some phase => some (some tags, some phase)
      | none =>
        -- group one present leads nowhere; the regex retries with it absent
        match tryParen l with
        | some phase => some (none, some phase)
        | none => if l.isEmpty then some (none, none) else none
  | none =>
    match tryParen l with
    | some phase => some (none, some phase)
    | none => if l.isEmpty then some (none, none) else none

/-- Shortest-title split of the text after the colon: moves characters
into the title one at a time and stops at the first point where the rest
of the line parses as the optional groups. -/
def splitTitle (acc : List Char) : List Char → Option (List Char × Option (List Char) × Option (List Char))
  | [] => none
  | c :: rest =>
    match tailMatch rest with
    | some (tags, phase) => some ((c :: acc).reverse, tags, phase)
    | none => splitTitle (c :: acc) rest

/-- Capture of the title and optional groups from the text after the
colon of a backlog task line; the leading whitespace is consumed greedily,
and when nothing but whitespace follows, one whitespace character is
yielded back to satisfy the one-character minimum of the title. -/
def matchAfterColon (s : List Char) : Option (List Char × Option (List Char) × Option (List Char)) :=
  let w := s.takeWhile isWsChar
  let r := s.dropWhile isWsChar
  if r.isEmpty then
    if w.isEmpty then none else some ([w.getLastD ' '], none, none)
  else splitTitle [] r

/-- Match of one backlog line against the promote pattern for an id:
checkbox-pending bold id and colon, then the captured title, tags and
phase. -/
def matchBacklogLine (id : String) (line : String) :
    Option (List Char × Option (List Char) × Option (List Char)) :=
  match dropPre ("- [ ] **" ++ id ++ "**:").data line.data with
  | none => none
  | some s => matchAfterColon s

/-- Index and captures of the first backlog line matching the promote
pattern. -/
def findBacklogTask (id : String) : BacklogLines → Option (Nat × List Char × Option (List Char) × Option (List Char))
  | [] => none
  | l :: ls =>
    match matchBacklogLine id l with
    | some cap => some (0, cap)
    | none =>
      match findBacklogTask id ls with
      | some (i, cap) => some (i + 1, cap)
      | none => none

/-- Priority detection of promoteTask: scans the document text before the
matched line for the section markers in the order P0, P1, P2, P3,
defaulting to P2. -/
def detectBacklogPriority (before : List String) : String :=
  if before.any (fun l => hasInfix "### P0".data l.data) then "P0"
  else if before.any (fun l => hasInfix "### P1".data l.data) then "P1"
  else if before.any (fun l => hasInfix "### P2".data l.data) then "P2"
  else if before.any (fun l => hasInfix "### P3".data l.data) then "P3"
  else "P2"

/-- Project extraction of promoteTask from the id: the leading uppercase
run when a dash follows it, the fallback otherwise. -/
def extractProject (id : String) : String :=
  let letters := id.data.takeWhile (fun c => 'A' ≤ c && c ≤ 'Z')
  let rest := id.data.drop letters.length
  if !letters.isEmpty && rest.head? = some '-' then ⟨letters⟩ else "PROJ"

/-- Checkbox rewrite of the promote handler: the first line opening with
the pending marker and the bold id has its box rewritten to promoted, the
rest of the line kept. -/
def markPromotedLine (id : String) : BacklogLines → BacklogLines
  | [] => []
  | l :: ls =>
    match dropPre ("- [ ] **" ++ id ++ "**").data l.data with
    | some rest => (⟨("- [promoted] **" ++ id ++ "**").data ++ rest⟩ : String) :: ls
    | none => l :: markPromotedLine id ls

/-- Split of a character list at the first occurrence of a pattern,
returning the part before it and the part after it. -/
def breakAt (pat : List Char) : List Char → Option (List Char × List Char)
  | [] => (dropPre pat []).map (fun r => (([] : List Char), r))
  | c :: cs =>
    match dropPre pat (c :: cs) with
    | some r => some ([], r)
    | none => (breakAt pat cs).map (fun p => (c :: p.1, p.2))

/-- Timestamp rewrite of the backlog document: in the first line carrying
the bold last-updated marker, the text from the marker on is replaced by
the marker and the current display date. -/
def replaceLastUpdatedLine (todayHuman : String) : BacklogLines → BacklogLines
  | [] => []
  | l :: ls =>
    match breakAt "**Last Updated:** ".data l.data with
    | some (before, _) =>
      (⟨before ++ "**Last Updated:** ".data ++ todayHuman.data⟩ : String) :: ls
    | none => l :: replaceLastUpdatedLine todayHuman ls

/-- Arguments of promote_task; a falsy priority override (absent or
empty) is modelled as none. -/
structure PromoteArgs where
  task_id : String
  owner : String := "unassigned"
  priority : Option String := none
  depends_on : List String := []
  estimate : Option String := none
  due : Option String := none

/-- Structured result of promote_task. -/
inductive PromoteResult where
  | alreadyActive (id : String)
  | backlogMissing
  | notFoundInBacklog (id : String)
  | promoted (record : Task)
  deriving DecidableEq

/-- promoteTask from src/tools/backlog.js as a transformer of the store:
an id already active in todos is a warning that touches nothing; a
missing backlog document or a missing backlog entry is an error that
touches nothing; otherwise the frontmatter record is built with status
todo and the current dates, the task file is written, and the backlog
entry is marked promoted with the document timestamp refreshed. -/
def promoteTask (args : PromoteArgs) (todayISO todayHuman : String) (st : Store) :
    PromoteResult × Store :=
  let id := jsToUpper args.task_id
  if st.todos.any (fun f => f.name == id ++ ".md") then
    (.alreadyActive id, st)
  else
    match st.backlog with
    | none => (.backlogMissing, st)
    | some lines =>
      match findBacklogTask id lines with
      | none => (.notFoundInBacklog id, st)
      | some (idx, rawTitle, rawTags, rawPhase) =>
        let title : String := ⟨jsTrimChars rawTitle⟩
        let tags : List String :=
          match rawTags with
          | some content => (content.splitOn ',').map (fun t => (⟨jsTrimChars t⟩ : String))
          | none => []
        let phase : Option String := rawPhase.map (fun p => (⟨p⟩ : String))
        let taskPriority :=
          match args.priority with
          | some p => p
          | none => detectBacklogPriority (lines.take idx)
        let record : Task :=
          { id := id, title := title, project := extractProject id,
            priority := some taskPriority, status := "todo", owner := args.owner,
            depends_on := some args.depends_on, blocked_by := some [],
            tags := tags, estimate := args.estimate, due := args.due,
            phase := phase, created := todayISO, updated := todayISO }
        let lines' := replaceLastUpdatedLine todayHuman (markPromotedLine id lines)
        (.promoted record,
          { st with todos := st.todos ++ [⟨id ++ ".md", record⟩],
                    backlog := some lines' })

/- ### src/tools/backlog.js : archive_task -/

/-- Arguments of archive_task. -/
structure ArchiveArgs where
  task_id : String
  force : Bool := false

/-- Structured result of archive_task; the not-done case is reported as a
warning payload without the error flag, the not-found case with it. -/
inductive ArchiveResult where
  | notFound (id : String)
  | notDoneWarning (id : String) (status : String)
  | archived (record : Task)
  deriving DecidableEq

/-- archiveTask from src/tools/backlog.js as a transformer of the store:
a missing active file is an error that touches nothing; a record that is
not done is, without force, a warning that touches nothing; otherwise the
archived and updated stamps are written, the record is written to the
archive directory (replacing a file of the same name) and the active file
is removed. -/
def archiveTask (args : ArchiveArgs) (todayISO : String) (st : Store) :
    ArchiveResult × Store :=
  let id := jsToUpper args.task_id
  match st.todos.find? (fun f => f.name == id ++ ".md") with
  | none => (.notFound id, st)
  | some f =>
    if ¬ f.task.status = "done" ∧ args.force = false then
      (.notDoneWarning id f.task.status, st)
    else
      let record := { f.task with archived := some todayISO, updated := todayISO }
      (.archived record,
        { st with
            todos := st.todos.filter (fun g => !(g.name == id ++ ".md")),
            archive := st.archive.filter (fun g => !(g.name == id ++ ".md"))
              ++ [⟨id ++ ".md", record⟩] })

/-- C10 (auxiliary): the concrete store of the witness. -/
def c10Store : Store := { backlog := some ["- [ ] **A-001**: Fix it"] }

/-- C10 (auxiliary): the record the witness promotion materializes. -/
def c10Rec : Task :=
  { id := "A-001", title := "Fix it", project := "A", priority := some "P2",
    status := "todo", owner := "unassigned", depends_on := some [],
    blocked_by := some [], tags := [], estimate := none, due := none,
    phase := none, created := "2025-01-02", updated := "2025-01-02",
    completed := none, archived := none }

/-- C10 (auxiliary): the store after the witness promotion. -/
def c10Store2 : Store :=
  { todos := [⟨"A-001.md", c10Rec⟩],
    backlog := some ["- [promoted] **A-001**: Fix it"] }

/- ### src/lib/tasks.js : parseTasksFromContent (the candidate extractor) -/

/-- One extracted draft task. -/
structure Candidate where
  tempId : String
  title : String
  priority : String
  phase : Option String
  sectionCtx : Option String
  isParent : Bool
  subtasks : List String
  tags : List String
  deriving DecidableEq

/-- Parser state while scanning lines. -/
structure ParseState where
  currentPhase : Option String := none
  currentSection : Option String := none
  currentParent : Option String := none
  tasks : List Candidate := []
  deriving DecidableEq

/-- Capture of the whitespace-then-rest group of the heading and bullet
patterns: the greedy whitespace run followed by a greedily captured
remainder of at least one character, with one whitespace character handed
back when nothing else follows. -/
def captureAfterWs (s : List Char) : Option (List Char) :=
  let r := s.dropWhile isWsChar
  if r.isEmpty then
    if s.isEmpty then none else some [s.getLastD ' ']
  else some r

/-- Capture requiring at least one leading whitespace character (the plus
form of the whitespace run). -/
def captureAfterWs1 (s : List Char) : Option (List Char) :=
  match s with
  | c :: rest => if isWsChar c then captureAfterWs rest else none
  | [] => none

/-- Heading capture: the given marker characters, at least one whitespace
character, and a nonempty remainder; the returned text has asterisks and
underscores removed and is trimmed, as the source does with the capture. -/
def headingCapture (marks : List Char) (trimmed : List Char) : Option String :=
  match dropPre marks trimmed with
  | none => none
  | some rest =>
    match captureAfterWs1 rest with
    | some _ =>
      some ⟨jsTrimChars (rest.filter (fun c => !(c = '*' || c = '_')))⟩
    | none => none

/-- Match of a trimmed line against the two bullet patterns of the task
scanner: first the checklist form (marker, optional whitespace, a box
holding a space or an x, optional whitespace, the title), then the plain
bullet form (marker, whitespace, the title); returns the raw captured
title. -/
def taskLineMatch (trimmed : List Char) : Option (List Char) :=
  match trimmed with
  | [] => none
  | m :: rest =>
    if m = '-' || m = '*' then
      let afterWs := rest.dropWhile isWsChar
      match afterWs with
      | '[' :: b :: ']' :: tail =>
        if b = ' ' || b = 'x' then
          match captureAfterWs tail with
          | some t => some t
          | none => captureAfterWs1 rest
        else captureAfterWs1 rest
      | _ => captureAfterWs1 rest
    else none

/-- Reserved-marker test of the extractor, case-insensitive on the
title. -/
def isReservedTitle (title : List Char) : Bool :=
  let lower := title.map jsLowerChar
  ("note:".data.isPrefixOf lower) || ("see:".data.isPrefixOf lower) ||
  ("ref:".data.isPrefixOf lower) || ("link:".data.isPrefixOf lower)

/-- First matching priority keyword of the title, in object order,
defaulting to the caller priority. -/
def detectKeywordPriority (defaultPriority : String) (titleLower : List Char) : String :=
  match PRIORITY_KEYWORDS.find? (fun kv => hasInfix kv.1.data titleLower) with
  | some kv => kv.2
  | none => defaultPriority

/-- Global bracket scan of the title: a bracket opens a candidate tag,
any character other than the closing bracket is content, a closing
bracket after nonempty content emits the tag and removes the bracketed
text, a closing bracket right after the opening one leaves both as
literal text, and an unclosed bracket at the end stays literal. -/
def extractBracketsGo : List Char → Option (List Char) → List (List Char) × List Char
  | [], none => ([], [])
  | [], some buf => ([], '[' :: buf)
  | c :: cs, none =>
    if c = '[' then extractBracketsGo cs (some [])
    else
      let (tags, out) := extractBracketsGo cs none
      (tags, c :: out)
  | c :: cs, some buf =>
    if c = ']' then
      if buf.isEmpty then
        let (tags, out) := extractBracketsGo cs none
        (tags, '[' :: ']' :: out)
      else
        let (tags, out) := extractBracketsGo cs none
        (buf :: tags, out)
    else extractBracketsGo cs (some (buf ++ [c]))

/-- Subtask push of the extractor: the first candidate carrying the
parent temp id receives the title. -/
def pushSubtask (pid : String) (title : String) : List Candidate → List Candidate
  | [] => []
  | c :: cs =>
    if c.tempId == pid then { c with subtasks := c.subtasks ++ [title] } :: cs
    else c :: pushSubtask pid title cs

/-- Candidate construction of the extractor for a new (non-subtask)
line: temp id from the current count, keyword-detected priority, the
current phase and section, parenthood from the indentation, and bracket
tags extracted from and stripped out of the title. -/
def mkCandidate (st : ParseState) (title : List Char) (priority : String)
    (indent : Nat) : Candidate :=
  let tempId : String := ⟨"temp-".data ++ natDecimalChars st.tasks.length⟩
  let (tagContents, stripped) := extractBracketsGo title none
  if tagContents.isEmpty then
    { tempId := tempId, title := ⟨title⟩, priority := priority,
      phase := st.currentPhase, sectionCtx := st.currentSection,
      isParent := decide (indent ≤ 2), subtasks := [], tags := [] }
  else
    { tempId := tempId, title := ⟨jsTrimChars stripped⟩, priority := priority,
      phase := st.currentPhase, sectionCtx := st.currentSection,
      isParent := decide (indent ≤ 2), subtasks := [],
      tags := tagContents.map (fun c => (⟨c.map jsLowerChar⟩ : String)) }

/-- Per-line step of parseTasksFromContent: headings set the phase or
section context, a matched bullet line with a valid title becomes a
subtask of the open parent when indented beyond the threshold, and a new
candidate otherwise; titles under three characters or opening with a
reserved marker are skipped. -/
def parseLine (defaultPriority : String) (st : ParseState) (line : String) : ParseState :=
  let trimmed := jsTrimChars line.data
  match headingCapture ['#', '#'] trimmed with
  | some text =>
    { st with currentPhase := some text, currentSection := none, currentParent := none }
  | none =>
    match headingCapture ['#', '#', '#'] trimmed with
    | some text => { st with currentSection := some text, currentParent := none }
    | none =>
      match taskLineMatch trimmed with
      | none => st
      | some raw =>
        let title := jsTrimChars raw
        if title.length < 3 then st
        else if isReservedTitle title then st
        else
          let priority := detectKeywordPriority defaultPriority (title.map jsLowerChar)
          let indent := (line.data.takeWhile (fun c => isWsChar c)).length
          if indent > 2 ∧ ¬ st.currentParent = none then
            { st with tasks := pushSubtask (st.currentParent.getD "") (⟨title⟩ : String) st.tasks }
          else
            let t := mkCandidate st title priority indent
            { st with tasks := st.tasks ++ [t], currentParent := some t.tempId }

/-- parseTasksFromContent from src/lib/tasks.js: scans the content line
by line (the project argument is unused by the source as well). -/
def parseTasksFromContent (content : String) (project : String)
    (defaultPriority : String) : List Candidate :=
  (((content.data.splitOn '\n').map (fun l => (⟨l⟩ : String))).foldl
    (parseLine defaultPriority) {}).tasks

/- ### Definitions named by the claims only

claimKeyCmp renders the sort key exactly as the specification words it,
with the identifier as the final tie-break in every tie; canonPriority
maps a task with an absent or invalid priority to the same task at P2;
specReadyActiveArchive renders the readiness rule exactly as the
specification words it, resolving dependencies in the union of the active
and archive stores. -/

/-- The sort key as claimed: status, priority, due date (presence, then
lexicographic), then always the id as final tie-break. -/
def claimKeyCmp (a b : Task) : Int :=
  if ¬ sKey a = sKey b then (sKey a : Int) - (sKey b : Int)
  else if ¬ priorityRank a.priority = priorityRank b.priority then
    (priorityRank a.priority : Int) - (priorityRank b.priority : Int)
  else if truthyStr a.due ∧ truthyStr b.due then
    (if ¬ cmpChars (a.due.getD "").data (b.due.getD "").data = 0 then
      cmpChars (a.due.getD "").data (b.due.getD "").data
    else cmpChars a.id.data b.id.data)
  else if truthyStr a.due then -1
  else if truthyStr b.due then 1
  else cmpChars a.id.data b.id.data

/-- Replacement of an absent or invalid priority by P2. -/
def canonPriority (t : Task) : Task :=
  match t.priority with
  | some s => if s = "P0" ∨ s = "P1" ∨ s = "P2" ∨ s = "P3" then t
    else { t with priority := some "P2" }
  | none => { t with priority := some "P2" }

/-- Modelled from the spec (section 4.5 as quoted by claim C2): readiness
with dependencies resolved in the union of the Active and Archive stores,
requiring a record with the referenced id and status done. -/
def specReadyActiveArchive (task : Task) (st : Store) : Bool :=
  let records := loadAllTasks st ++
    (st.archive.filter (fun f => isTaskFileName f.name)).map (fun f => f.task)
  match task.depends_on with
  | none => true
  | some deps =>
    deps.all (fun depId =>
      records.any (fun r => r.id == depId && r.status == "done"))

/- ### Basic lemmas about the string primitives -/

theorem dropPre_self_append (p r : List Char) : dropPre p (p ++ r) = some r := by
  induction p with
  | nil => rfl
  | cons c cs ih => simp [dropPre, ih]

theorem dropSuf_append_self (s r : List Char) : dropSuf s (r ++ s) = some r := by
  simp [dropSuf, List.reverse_append, dropPre_self_append]

theorem cmpChars_swap (x y : List Char) : cmpChars x y = -cmpChars y x := by
  induction x generalizing y with
  | nil => cases y <;> simp [cmpChars]
  | cons a as ih =>
    cases y with
    | nil => simp [cmpChars]
    | cons b bs =>
      by_cases hab : a = b
      · subst hab; simp [cmpChars, ih]
      · have hba : ¬ b = a := fun h => hab h.symm
        rcases lt_trichotomy a b with h | h | h
        · simp [cmpChars, hab, hba, h, not_lt.mpr h.le]
        · exact absurd h hab
        · simp [cmpChars, hab, hba, h, not_lt.mpr h.le]

theorem cmpChars_le_trans {x y z : List Char} (h1 : cmpChars x y ≤ 0)
    (h2 : cmpChars y z ≤ 0) : cmpChars x z ≤ 0 := by
  induction x generalizing y z with
  | nil => cases z <;> simp [cmpChars]
  | cons a as ih =>
    cases y with
    | nil => simp [cmpChars] at h1
    | cons b bs =>
      cases z with
      | nil => simp [cmpChars] at h2
      | cons c cs =>
        by_cases hab : a = b
        · subst hab
          by_cases hac : a = c
          · subst hac
            simp only [cmpChars, if_pos rfl] at h1 h2 ⊢
            exact ih h1 h2
          · simp only [cmpChars, if_pos rfl] at h1
            simp only [cmpChars, if_neg hac] at h2 ⊢
            exact h2
        · simp only [cmpChars, if_neg hab] at h1
          by_cases hal : a < b
          · by_cases hbc : b = c
            · subst hbc
              simp [cmpChars, hab, hal]
            · simp only [cmpChars, if_neg hbc] at h2
              by_cases hbl : b < c
              · have hac : a < c := lt_trans hal hbl
                have hne : ¬ a = c := ne_of_lt hac
                simp [cmpChars, hne, hac]
              · simp [hbl] at h2
          · simp [hal] at h1

theorem cmpChars_total (x y : List Char) : cmpChars x y ≤ 0 ∨ cmpChars y x ≤ 0 := by
  rcases le_or_lt (cmpChars x y) 0 with h | h
  · exact Or.inl h
  · right
    rw [cmpChars_swap y x]
    omega

theorem parseDigits_append (l : List Char) (c : Char) :
    parseDigits (l ++ [c]) = parseDigits l * 10 + digitVal c := by
  simp [parseDigits, List.foldl_append]

theorem digitVal_digitChar : ∀ d < 10, digitVal (digitChar d) = d := by decide

theorem isDigitChar_digitChar : ∀ d < 10, isDigitChar (digitChar d) = true := by decide

theorem decDigitsRev_lt_ten (fuel n : Nat) : ∀ d ∈ decDigitsRev fuel n, d < 10 := by
  induction fuel generalizing n with
  | zero => simp [decDigitsRev]
  | succ fuel ih =>
    intro d hd
    by_cases hn : n = 0
    · simp [decDigitsRev, hn] at hd
    · simp only [decDigitsRev, if_neg hn, List.mem_cons] at hd
      rcases hd with h | h
      · omega
      · exact ih _ d h

theorem parseDigits_decDigitsRev (fuel n : Nat) (h : n ≤ fuel) :
    parseDigits ((decDigitsRev fuel n).reverse.map digitChar) = n := by
  induction fuel generalizing n with
  | zero =>
    have : n = 0 := by omega
    simp [decDigitsRev, parseDigits, this]
  | succ fuel ih =>
    by_cases hn : n = 0
    · simp [decDigitsRev, hn, parseDigits]
    · have hdiv : n / 10 ≤ fuel := by
        have := Nat.div_lt_self (Nat.pos_of_ne_zero hn) (by omega : 1 < 10)
        omega
      simp only [decDigitsRev, if_neg hn, List.reverse_cons, List.map_append,
        List.map_cons, List.map_nil]
      rw [parseDigits_append, ih _ hdiv, digitVal_digitChar _ (Nat.mod_lt _ (by omega))]
      omega

theorem parseDigits_natDecimalChars (n : Nat) :
    parseDigits (natDecimalChars n) = n := by
  by_cases hn : n = 0
  · simp [natDecimalChars, hn, parseDigits, digitVal, digitChar]
  · simp only [natDecimalChars, if_neg hn]
    exact parseDigits_decDigitsRev n n le_rfl

theorem parseDigits_replicate_zero (k : Nat) (l : List Char) :
    parseDigits (List.replicate k '0' ++ l) = parseDigits l := by
  induction k with
  | zero => simp
  | succ k ih =>
    have : List.replicate (k + 1) '0' ++ l = '0' :: (List.replicate k '0' ++ l) := by
      simp [List.replicate_succ]
    rw [this]
    simpa [parseDigits, digitVal] using ih

theorem parseDigits_padStart3_natDecimalChars (n : Nat) :
    parseDigits (padStart3 (natDecimalChars n)) = n := by
  rw [padStart3, parseDigits_replicate_zero, parseDigits_natDecimalChars]

theorem natDecimalChars_ne_nil (n : Nat) : natDecimalChars n ≠ [] := by
  cases n with
  | zero => simp [natDecimalChars]
  | succ m => simp [natDecimalChars, decDigitsRev]

theorem natDecimalChars_all_digits (n : Nat) :
    (natDecimalChars n).all isDigitChar = true := by
  by_cases hn : n = 0
  · simp [natDecimalChars, hn]; decide
  · simp only [natDecimalChars, if_neg hn, List.all_eq_true]
    intro c hc
    simp only [List.mem_map, List.mem_reverse] at hc
    obtain ⟨d, hd, rfl⟩ := hc
    exact isDigitChar_digitChar d (decDigitsRev_lt_ten n n d hd)

theorem padStart3_all_digits (l : List Char) (h : l.all isDigitChar = true) :
    (padStart3 l).all isDigitChar = true := by
  simp only [padStart3, List.all_append, Bool.and_eq_true, List.all_eq_true]
  refine ⟨fun c hc => ?_, by simpa using h⟩
  rw [List.eq_of_mem_replicate hc]
  decide

theorem padStart3_ne_nil (l : List Char) (h : l ≠ []) : padStart3 l ≠ [] := by
  simp only [padStart3]
  intro hcontra
  rcases List.append_eq_nil.mp hcontra with ⟨_, h2⟩
  exact h h2

/- ### Order theory of the comparator -/

theorem taskCompare_le_iff (a b : Task) :
    taskCompare a b ≤ 0 ↔
      (sKey a < sKey b ∨ (sKey a = sKey b ∧
        (priorityRank a.priority < priorityRank b.priority ∨
          (priorityRank a.priority = priorityRank b.priority ∧
            (dKey a < dKey b ∨ (dKey a = dKey b ∧
              cmpChars (tKey a) (tKey b) ≤ 0)))))) := by
  unfold taskCompare sKey dKey tKey
  by_cases ha : a.status = "in_progress" <;> by_cases hb : b.status = "in_progress" <;>
    by_cases hp : priorityRank a.priority = priorityRank b.priority <;>
      by_cases hda : truthyStr a.due <;> by_cases hdb : truthyStr b.due <;>
        simp_all <;> omega

theorem taskLE_trans (a b c : Task) (h1 : taskLE a b) (h2 : taskLE b c) :
    taskLE a c := by
  rw [taskLE, taskCompare_le_iff] at h1 h2 ⊢
  rcases h1 with h1 | ⟨hs1, h1⟩
  · rcases h2 with h2 | ⟨hs2, h2⟩
    · exact Or.inl (by omega)
    · exact Or.inl (by omega)
  · rcases h2 with h2 | ⟨hs2, h2⟩
    · exact Or.inl (by omega)
    · refine Or.inr ⟨by omega, ?_⟩
      rcases h1 with h1 | ⟨hp1, h1⟩
      · rcases h2 with h2 | ⟨hp2, h2⟩
        · exact Or.inl (by omega)
        · exact Or.inl (by omega)
      · rcases h2 with h2 | ⟨hp2, h2⟩
        · exact Or.inl (by omega)
        · refine Or.inr ⟨by omega, ?_⟩
          rcases h1 with h1 | ⟨hd1, h1⟩
          · rcases h2 with h2 | ⟨hd2, h2⟩
            · exact Or.inl (by omega)
            · exact Or.inl (by omega)
          · rcases h2 with h2 | ⟨hd2, h2⟩
            · exact Or.inl (by omega)
            · have htk : tKey a = tKey a := rfl
              refine Or.inr ⟨by omega, cmpChars_le_trans h1 h2⟩

theorem taskLE_total (a b : Task) : taskLE a b ∨ taskLE b a := by
  rw [taskLE, taskLE, taskCompare_le_iff, taskCompare_le_iff]
  rcases cmpChars_total (tKey a) (tKey b) with h | h <;>
    rw [cmpChars_swap (tKey b) (tKey a)] at * <;> omega

instance : IsTrans Task taskLE := ⟨taskLE_trans⟩

instance : IsTotal Task taskLE := ⟨taskLE_total⟩

theorem sortTasksByPriority_perm (tasks : List Task) :
    (sortTasksByPriority tasks).Perm tasks :=
  List.perm_insertionSort taskLE tasks

theorem sortTasksByPriority_pairwise (tasks : List Task) :
    (sortTasksByPriority tasks).Pairwise taskLE :=
  List.sorted_insertionSort taskLE tasks

/- ### Freshness of getNextTaskId within the todos directory -/

theorem maxTaskNum_le_step (pU : List Char) (m : Nat) (f : String) :
    m ≤ (match matchTaskFile pU f.data with
      | some n => if m < n then n else m
      | none => m) := by
  cases matchTaskFile pU f.data with
  | none => simp
  | some n => simp only; split <;> omega

theorem le_foldl_maxTaskNum (pU : List Char) (l : List String) (m : Nat) :
    m ≤ l.foldl
      (fun m f =>
        match matchTaskFile pU f.data with
        | some n => if m < n then n else m
        | none => m) m := by
  induction l generalizing m with
  | nil => simp
  | cons x xs ih =>
    simp only [List.foldl_cons]
    exact le_trans (maxTaskNum_le_step pU m x) (ih _)

theorem matched_le_foldl_maxTaskNum (pU : List Char) (l : List String) (m : Nat)
    (f : String) (k : Nat) (hf : f ∈ l) (hk : matchTaskFile pU f.data = some k) :
    k ≤ l.foldl
      (fun m f =>
        match matchTaskFile pU f.data with
        | some n => if m < n then n else m
        | none => m) m := by
  induction l generalizing m with
  | nil => simp at hf
  | cons x xs ih =>
    simp only [List.foldl_cons]
    rcases List.mem_cons.mp hf with rfl | hmem
    · refine le_trans ?_ (le_foldl_maxTaskNum pU xs _)
      simp only [hk]
      split <;> omega
    · exact ih _ hmem

/- ### Field-preservation lemmas of the update blocks -/

theorem completed_upTitle (u : UpdateArgs) (t : Task) :
    (upTitle u t).completed = t.completed := by
  unfold upTitle; cases u.title <;> rfl

theorem completed_upOwner (u : UpdateArgs) (t : Task) :
    (upOwner u t).completed = t.completed := by
  unfold upOwner; cases u.owner <;> rfl

theorem completed_upPriority (u : UpdateArgs) (t : Task) :
    (upPriority u t).completed = t.completed := by
  unfold upPriority; cases u.priority <;> rfl

theorem completed_upEstimate (u : UpdateArgs) (t : Task) :
    (upEstimate u t).completed = t.completed := by
  unfold upEstimate; cases u.estimate <;> rfl

theorem completed_upDue (u : UpdateArgs) (t : Task) :
    (upDue u t).completed = t.completed := by
  unfold upDue; cases u.due <;> rfl

theorem completed_upDepends (u : UpdateArgs) (t : Task) :
    (upDepends u t).completed = t.completed := by
  unfold upDepends; cases u.depends_on <;> rfl

theorem completed_upBlocked (u : UpdateArgs) (t : Task) :
    (upBlocked u t).completed = t.completed := by
  unfold upBlocked; cases u.blocked_by <;> rfl

theorem completed_upTags (u : UpdateArgs) (t : Task) :
    (upTags u t).completed = t.completed := by
  unfold upTags; cases u.tags <;> rfl

theorem status_upTitle (u : UpdateArgs) (t : Task) :
    (upTitle u t).status = t.status := by
  unfold upTitle; cases u.title <;> rfl

theorem status_upOwner (u : UpdateArgs) (t : Task) :
    (upOwner u t).status = t.status := by
  unfold upOwner; cases u.owner <;> rfl

theorem status_upPriority (u : UpdateArgs) (t : Task) :
    (upPriority u t).status = t.status := by
  unfold upPriority; cases u.priority <;> rfl

theorem completed_upStatus (u : UpdateArgs) (today : String) (t : Task) :
    (upStatus u today t).completed =
      if u.status = some "done" ∧ ¬ t.status = "done" then some today
      else t.completed := by
  unfold upStatus
  cases h : u.status with
  | none => simp [h]
  | some v =>
    by_cases hv : v = "done" ∧ ¬ t.status = "done"
    · simp only [if_pos hv]
      rw [if_pos]
      exact ⟨by rw [hv.1], hv.2⟩
    · simp only [if_neg hv]
      rw [if_neg]
      intro ⟨h1, h2⟩
      exact hv ⟨Option.some.inj h1, h2⟩

/- ### Fail-closed dependency resolution -/

theorem taskMapGet_none (allTasks : List Task) (depId : String)
    (habsent : ∀ t ∈ allTasks, ¬ t.id = depId) :
    taskMapGet allTasks depId = none := by
  unfold taskMapGet
  have hfilter : allTasks.filter (fun t => t.id == depId) = [] := by
    rw [List.filter_eq_nil_iff]
    intro t ht
    simpa using habsent t ht
  rw [hfilter]
  rfl

theorem matchTaskFile_fresh (pU : List Char) (n : Nat) :
    matchTaskFile pU (pU ++ '-' :: (padStart3 (natDecimalChars n) ++ ['.', 'm', 'd'])) =
      some n := by
  have hassoc : pU ++ '-' :: (padStart3 (natDecimalChars n) ++ ['.', 'm', 'd']) =
      (pU ++ ['-']) ++ (padStart3 (natDecimalChars n) ++ ['.', 'm', 'd']) := by
    simp
  have hne : (padStart3 (natDecimalChars n)).isEmpty = false := by
    rw [List.isEmpty_eq_false]
    exact padStart3_ne_nil _ (natDecimalChars_ne_nil n)
  rw [matchTaskFile, hassoc, dropPre_self_append]
  simp only [dropSuf_append_self, hne, Bool.false_eq_true, if_false,
    padStart3_all_digits _ (natDecimalChars_all_digits n), if_true,
    parseDigits_padStart3_natDecimalChars]

/- ### Claim theorems -/

/-- C1 (counterexample): getNextTaskId, the allocator create_task uses,
scans only the todos directory; with an empty todos directory and the id
AUTH-001 present in the archive store, it returns AUTH-001, an id already
present in one of the three stores — contradicting the claim that it
scans Backlog, Active, and Archive and never returns a present id. -/
theorem getNextTaskId_archive_collision :
    getNextTaskId "AUTH"
        (({ archive := [⟨"AUTH-001.md", { id := "AUTH-001", status := "done" }⟩] }
          : Store).todos.map (fun f => f.name)) = "AUTH-001" ∧
    idPresentInStores
      { archive := [⟨"AUTH-001.md", { id := "AUTH-001", status := "done" }⟩] }
      "AUTH-001" = true := by
  constructor <;> decide

/-- C1 (amended): for a project made of ASCII letters, the id returned by
getNextTaskId — the project prefix with the successor of the maximal
numeric suffix found in the todos directory, zero-padded to three digits —
never collides with a file already present in the todos (Active)
directory; Backlog and Archive are not scanned and are not protected. -/
theorem getNextTaskId_fresh_in_todos (project : String) (todosFiles : List String)
    (halpha : project.data.all isAsciiAlphaChar = true) :
    getNextTaskId project todosFiles ++ ".md" ∉ todosFiles := by
  intro hmem
  set pU := (jsToUpper project).data with hpU
  have hdata : (getNextTaskId project todosFiles ++ ".md").data =
      pU ++ '-' :: (padStart3 (natDecimalChars (maxTaskNum pU todosFiles + 1))
        ++ ['.', 'm', 'd']) := by
    rw [String.data_append]
    simp [getNextTaskId]
  have hmatch : matchTaskFile pU (getNextTaskId project todosFiles ++ ".md").data =
      some (maxTaskNum pU todosFiles + 1) := by
    rw [hdata]
    exact matchTaskFile_fresh pU _
  have hle := matched_le_foldl_maxTaskNum pU todosFiles 0 _
    (maxTaskNum pU todosFiles + 1) hmem hmatch
  have : maxTaskNum pU todosFiles + 1 ≤ maxTaskNum pU todosFiles := hle
  omega

/-- C1 (witness): the freshness theorem applied at a concrete project and
listing. -/
theorem getNextTaskId_fresh_in_todos_witness :
    getNextTaskId "auth" ["AUTH-001.md", "AUTH-007.md"] ++ ".md" ∉
      ["AUTH-001.md", "AUTH-007.md"] :=
  getNextTaskId_fresh_in_todos "auth" ["AUTH-001.md", "AUTH-007.md"] (by decide)

/-- C2 (counterexample): with AUTH-001 archived with status done and the
active task AUTH-002 depending on it, the dependency check used by
get_next_task reports the dependencies unmet and schedules nothing, while
the claimed readiness over Active and Archive records is true — archiving
a done dependency therefore does not keep dependents ready. -/
theorem archived_done_dependency_not_ready :
    specReadyActiveArchive
        { id := "AUTH-002", depends_on := some ["AUTH-001"] }
        { todos := [⟨"AUTH-002.md", { id := "AUTH-002", depends_on := some ["AUTH-001"] }⟩],
          archive := [⟨"AUTH-001.md", { id := "AUTH-001", status := "done" }⟩] } = true ∧
    areDependenciesMet
        { id := "AUTH-002", depends_on := some ["AUTH-001"] }
        (loadAllTasks
          { todos := [⟨"AUTH-002.md", { id := "AUTH-002", depends_on := some ["AUTH-001"] }⟩],
            archive := [⟨"AUTH-001.md", { id := "AUTH-001", status := "done" }⟩] }) = false ∧
    getNextTaskCandidates {}
        (loadAllTasks
          { todos := [⟨"AUTH-002.md", { id := "AUTH-002", depends_on := some ["AUTH-001"] }⟩],
            archive := [⟨"AUTH-001.md", { id := "AUTH-001", status := "done" }⟩] }) = [] := by
  refine ⟨by decide, by decide, by decide⟩

/-- C2 (amended): the dependency check of get_next_task is satisfied
exactly when the task has no dependency list, or every referenced id
resolves — by the last loaded Active record carrying that id — to a
record with status done; Archive records are never consulted, so
archiving a done dependency makes tasks referencing it unready. -/
theorem areDependenciesMet_iff_active_done (t : Task) (ts : List Task) :
    areDependenciesMet t ts = true ↔
      (∀ deps, t.depends_on = some deps → ∀ depId ∈ deps,
        ∃ dep, taskMapGet ts depId = some dep ∧ dep.status = "done") := by
  unfold areDependenciesMet
  cases h : t.depends_on with
  | none => simp
  | some deps =>
    simp only [Option.some.injEq]
    by_cases hemp : deps.isEmpty
    · rw [if_pos hemp]
      rw [List.isEmpty_iff] at hemp
      subst hemp
      simp
    · rw [if_neg hemp, List.all_eq_true]
      constructor
      · intro hall deps2 hdeps2 depId hmem
        subst hdeps2
        have := hall depId hmem
        cases hg : taskMapGet ts depId with
        | none => rw [hg] at this; simp at this
        | some dep =>
          rw [hg] at this
          simp only [beq_iff_eq] at this
          exact ⟨dep, rfl, this⟩
      · intro hforall depId hmem
        obtain ⟨dep, hget, hdone⟩ := hforall deps rfl depId hmem
        rw [hget]
        simpa using hdone

/-- C3: the dependency check is fail-closed: a dependency id carried by
the task that matches no record in the snapshot makes areDependenciesMet
return false. -/
theorem areDependenciesMet_fail_closed (task : Task) (allTasks : List Task)
    (deps : List String) (depId : String) (hdep : task.depends_on = some deps)
    (hmem : depId ∈ deps) (habsent : ∀ t ∈ allTasks, ¬ t.id = depId) :
    areDependenciesMet task allTasks = false := by
  have hget := taskMapGet_none allTasks depId habsent
  unfold areDependenciesMet
  have hne : deps.isEmpty = false := by
    cases deps
    · simp at hmem
    · rfl
  simp only [hdep, hne, Bool.false_eq_true, if_false]
  rw [List.all_eq_false]
  refine ⟨depId, hmem, ?_⟩
  rw [hget]
  simp

/-- C3 (witness): the fail-closed theorem applied to a task depending on
an id absent from a concrete snapshot. -/
theorem areDependenciesMet_fail_closed_witness :
    areDependenciesMet { id := "AUTH-002", depends_on := some ["AUTH-001"] }
      [{ id := "AUTH-003", status := "done" }] = false :=
  areDependenciesMet_fail_closed
    { id := "AUTH-002", depends_on := some ["AUTH-001"] }
    [{ id := "AUTH-003", status := "done" }]
    ["AUTH-001"] "AUTH-001" rfl (by decide) (by decide)

/-- C7: updateTask writes the completed stamp exactly on a status update
that sets done while the previous status was not done; any other update —
including setting done when already done, or setting a non-done status —
leaves the completed field untouched, and no update path clears it. -/
theorem updateTask_completed_stamp (u : UpdateArgs) (today : String) (t : Task) :
    (applyUpdates u today t).completed =
      if u.status = some "done" ∧ ¬ t.status = "done" then some today
      else t.completed := by
  unfold applyUpdates
  show (upTags u (upBlocked u (upDepends u (upDue u (upEstimate u
      (upStatus u today (upPriority u (upOwner u (upTitle u t))))))))).completed = _
  rw [completed_upTags, completed_upBlocked, completed_upDepends, completed_upDue,
    completed_upEstimate, completed_upStatus, status_upPriority, status_upOwner,
    status_upTitle, completed_upPriority, completed_upOwner, completed_upTitle]

/-- C4 (counterexample): two tasks that tie on status and priority and
carry the same due date are returned in input order by the sort — the
comparator returns zero without reaching the id comparison — so the id is
not the final tie-break of the realised order, contradicting the claimed
key at the concrete input below, where the id order would demand A-001
before A-002. -/
theorem sortTasks_equal_due_no_id_tiebreak :
    ¬ (sortTasksByPriority
        [{ id := "A-002", priority := some "P2", due := some "2025-01-01" },
         { id := "A-001", priority := some "P2", due := some "2025-01-01" }]).Pairwise
      (fun a b => claimKeyCmp a b ≤ 0) := by
  decide

/-- C4 (amended): the sort returns a permutation of its input ordered by
the source comparator — in-progress status first, then priority rank,
then the due-date block, with the id as tie-break only when the due-date
block does not already return (two equal present due dates compare as
zero and keep their input order under the stable sort); in particular any
in-progress task ranks before any non-in-progress task. -/
theorem sortTasksByPriority_orders (ts : List Task) :
    (sortTasksByPriority ts).Perm ts ∧
    (sortTasksByPriority ts).Pairwise taskLE ∧
    (sortTasksByPriority ts).Pairwise
      (fun a b => b.status = "in_progress" → a.status = "in_progress") := by
  refine ⟨sortTasksByPriority_perm ts, sortTasksByPriority_pairwise ts, ?_⟩
  refine (sortTasksByPriority_pairwise ts).imp ?_
  intro a b hle hb
  by_contra ha
  have hone : taskCompare a b = 1 := by
    unfold taskCompare
    rw [if_neg fun hc => ha hc.1, if_pos ⟨hb, ha⟩]
  rw [taskLE, hone] at hle
  omega

/- ### Lemmas for the invalid-priority claim -/

theorem canon_status (t : Task) : (canonPriority t).status = t.status := by
  cases h : t.priority with
  | none => simp [canonPriority, h]
  | some s =>
    by_cases hv : s = "P0" ∨ s = "P1" ∨ s = "P2" ∨ s = "P3" <;>
      simp [canonPriority, h, hv]

theorem canon_due (t : Task) : (canonPriority t).due = t.due := by
  cases h : t.priority with
  | none => simp [canonPriority, h]
  | some s =>
    by_cases hv : s = "P0" ∨ s = "P1" ∨ s = "P2" ∨ s = "P3" <;>
      simp [canonPriority, h, hv]

theorem canon_id (t : Task) : (canonPriority t).id = t.id := by
  cases h : t.priority with
  | none => simp [canonPriority, h]
  | some s =>
    by_cases hv : s = "P0" ∨ s = "P1" ∨ s = "P2" ∨ s = "P3" <;>
      simp [canonPriority, h, hv]

theorem priorityRank_invalid (s : String) (h0 : s ≠ "P0") (h1 : s ≠ "P1")
    (h2 : s ≠ "P2") (h3 : s ≠ "P3") : priorityRank (some s) = 2 := by
  have e0 : (s == "P0") = false := beq_eq_false_iff_ne.mpr h0
  have e1 : (s == "P1") = false := beq_eq_false_iff_ne.mpr h1
  have e2 : (s == "P2") = false := beq_eq_false_iff_ne.mpr h2
  have e3 : (s == "P3") = false := beq_eq_false_iff_ne.mpr h3
  simp [priorityRank, PRIORITY_ORDER, List.lookup, e0, e1, e2, e3]

theorem priorityRank_canon (t : Task) :
    priorityRank (canonPriority t).priority = priorityRank t.priority := by
  cases h : t.priority with
  | none => simp [canonPriority, h, priorityRank, PRIORITY_ORDER, List.lookup]
  | some s =>
    by_cases hv : s = "P0" ∨ s = "P1" ∨ s = "P2" ∨ s = "P3"
    · simp [canonPriority, h, hv]
    · have hni := hv
      push_neg at hni
      obtain ⟨h0, h1, h2, h3⟩ := hni
      simp only [canonPriority, h]
      rw [if_neg hv, priorityRank_invalid s h0 h1 h2 h3]
      rfl

theorem taskCompare_canon (a b : Task) :
    taskCompare a b = taskCompare (canonPriority a) (canonPriority b) := by
  simp only [taskCompare, canon_status, canon_due, canon_id, priorityRank_canon]

theorem taskLE_canon_iff (a b : Task) :
    taskLE (canonPriority a) (canonPriority b) ↔ taskLE a b := by
  rw [taskLE, taskLE, ← taskCompare_canon]

theorem orderedInsert_map_canon (a : Task) (l : List Task) :
    List.orderedInsert taskLE (canonPriority a) (l.map canonPriority) =
      (List.orderedInsert taskLE a l).map canonPriority := by
  induction l with
  | nil => rfl
  | cons b bs ih =>
    simp only [List.map_cons, List.orderedInsert]
    by_cases h : taskLE a b
    · rw [if_pos ((taskLE_canon_iff a b).mpr h), if_pos h]
      simp
    · rw [if_neg (fun hc => h ((taskLE_canon_iff a b).mp hc)), if_neg h]
      simp [ih]

theorem insertionSort_map_canon (ts : List Task) :
    List.insertionSort taskLE (ts.map canonPriority) =
      (List.insertionSort taskLE ts).map canonPriority := by
  induction ts with
  | nil => rfl
  | cons a l ih =>
    simp only [List.map_cons, List.insertionSort, ih]
    exact orderedInsert_map_canon a (List.insertionSort taskLE l)

/-- C9: a task whose priority is absent or outside the four tiers is
ranked exactly as if its priority were P2 — the comparator is unchanged
when every such priority is replaced by P2, and the sort commutes with
that replacement — and the comparator is total, so the sort never fails
on such tasks. -/
theorem sort_invalid_priority_as_P2 :
    (∀ a b : Task, taskCompare a b = taskCompare (canonPriority a) (canonPriority b)) ∧
    (∀ ts : List Task, sortTasksByPriority (ts.map canonPriority) =
      (sortTasksByPriority ts).map canonPriority) ∧
    (∀ a b : Task, taskLE a b ∨ taskLE b a) :=
  ⟨taskCompare_canon, insertionSort_map_canon, taskLE_total⟩

/-- C5: promote_task on an id whose file already exists in the todos
(Active) store returns the already-active warning and leaves the whole
store — active files, archive, and backlog document — exactly as it was;
the materialization is therefore performed at most once across repeated
calls. -/
theorem promoteTask_already_active_noop (args : PromoteArgs) (tI tH : String)
    (st : Store)
    (hactive : st.todos.any
      (fun f => f.name == jsToUpper args.task_id ++ ".md") = true) :
    promoteTask args tI tH st =
      (.alreadyActive (jsToUpper args.task_id), st) := by
  simp [promoteTask, hactive]

/-- C5 (witness): the no-op theorem applied at a concrete store holding
the id as an active file. -/
theorem promoteTask_already_active_noop_witness :
    promoteTask { task_id := "auth-001" } "2025-01-02" "January 2, 2025"
        { todos := [⟨"AUTH-001.md", { id := "AUTH-001" }⟩],
          backlog := some ["- [ ] **AUTH-001**: Fix login"] } =
      (.alreadyActive "AUTH-001",
        { todos := [⟨"AUTH-001.md", { id := "AUTH-001" }⟩],
          backlog := some ["- [ ] **AUTH-001**: Fix login"] }) :=
  promoteTask_already_active_noop { task_id := "auth-001" } "2025-01-02"
    "January 2, 2025"
    { todos := [⟨"AUTH-001.md", { id := "AUTH-001" }⟩],
      backlog := some ["- [ ] **AUTH-001**: Fix login"] } (by decide)

/-- C6: archive_task on an active record whose status is not done and
without force returns the not-done warning — the state-error report of
the handler — and performs no store mutation: no archive file is written,
the active file is kept, and no field of the record changes. -/
theorem archiveTask_not_done_noop (args : ArchiveArgs) (tI : String) (st : Store)
    (f : TaskFile)
    (hfind : st.todos.find?
      (fun g => g.name == jsToUpper args.task_id ++ ".md") = some f)
    (hstatus : ¬ f.task.status = "done") (hforce : args.force = false) :
    archiveTask args tI st =
      (.notDoneWarning (jsToUpper args.task_id) f.task.status, st) := by
  unfold archiveTask
  simp only [hfind]
  rw [if_pos ⟨hstatus, hforce⟩]

/-- C6 (witness): the no-mutation theorem applied at a concrete store
holding an in-progress record. -/
theorem archiveTask_not_done_noop_witness :
    archiveTask { task_id := "auth-001" } "2025-01-02"
        { todos := [⟨"AUTH-001.md", { id := "AUTH-001", status := "in_progress" }⟩] } =
      (.notDoneWarning "AUTH-001" "in_progress",
        { todos := [⟨"AUTH-001.md", { id := "AUTH-001", status := "in_progress" }⟩] }) :=
  archiveTask_not_done_noop { task_id := "auth-001" } "2025-01-02"
    { todos := [⟨"AUTH-001.md", { id := "AUTH-001", status := "in_progress" }⟩] }
    ⟨"AUTH-001.md", { id := "AUTH-001", status := "in_progress" }⟩
    (by decide) (by decide) rfl

/-- C10: every record that promote_task materializes has status todo and
carries the current date in both created and updated, whatever the
backlog entry and the caller arguments contained. -/
theorem promoteTask_creates_todo_with_dates (args : PromoteArgs) (tI tH : String)
    (st : Store) (rec : Task) (st2 : Store)
    (h : promoteTask args tI tH st = (.promoted rec, st2)) :
    rec.status = "todo" ∧ rec.created = tI ∧ rec.updated = tI := by
  simp only [promoteTask] at h
  by_cases hact : (st.todos.any fun f => f.name == jsToUpper args.task_id ++ ".md") = true
  · rw [if_pos hact] at h
    exact absurd h (by simp)
  · have hact2 : (st.todos.any fun f => f.name == jsToUpper args.task_id ++ ".md") = false :=
      by simpa using hact
    simp only [hact2, Bool.false_eq_true, if_false] at h
    cases hb : st.backlog with
    | none =>
      simp only [hb] at h
      exact absurd h (by simp)
    | some lines =>
      simp only [hb] at h
      cases hf : findBacklogTask (jsToUpper args.task_id) lines with
      | none =>
        simp only [hf] at h
        exact absurd h (by simp)
      | some tup =>
        simp only [hf] at h
        obtain ⟨idx, rawTitle, rawTags, rawPhase⟩ := tup
        simp only [Prod.mk.injEq, PromoteResult.promoted.injEq] at h
        obtain ⟨hrec, -⟩ := h
        rw [← hrec]
        exact ⟨rfl, rfl, rfl⟩

/-- C10 (witness): the field theorem applied at a concrete promotion. -/
theorem promoteTask_creates_todo_with_dates_witness :
    c10Rec.status = "todo" ∧ c10Rec.created = "2025-01-02" ∧
      c10Rec.updated = "2025-01-02" :=
  promoteTask_creates_todo_with_dates { task_id := "a-001" } "2025-01-02"
    "January 2, 2025" c10Store c10Rec c10Store2 (by decide)

/- ### Lemmas for the extractor claim -/

theorem taskLineMatch_not_heading (trimmed : List Char) (raw : List Char)
    (h : taskLineMatch trimmed = some raw) (ms : List Char) :
    headingCapture ('#' :: ms) trimmed = none := by
  cases trimmed with
  | nil => simp [taskLineMatch] at h
  | cons m rest =>
    by_cases hmk : (m = '-' || m = '*') = true
    · have : m = '-' ∨ m = '*' := by simpa using hmk
      rcases this with rfl | rfl <;>
        simp [headingCapture, dropPre]
    · simp only [taskLineMatch] at h
      rw [if_neg (by simpa using hmk)] at h
      exact absurd h (by simp)

/-- C8: in the candidate extractor, a matched checklist or bullet line
whose trimmed title is under three characters or opens (case-insensitively)
with one of the reserved markers changes nothing — no candidate and no
subtask is produced — and a line passing the filter that is not attached
as a subtask of an open parent appends exactly one new candidate built
from its title. -/
theorem parseLine_filters (dp : String) (st : ParseState) (line : String)
    (raw : List Char) (hmatch : taskLineMatch (jsTrimChars line.data) = some raw) :
    (((jsTrimChars raw).length < 3 ∨ isReservedTitle (jsTrimChars raw) = true) →
      parseLine dp st line = st) ∧
    (¬ ((jsTrimChars raw).length < 3 ∨ isReservedTitle (jsTrimChars raw) = true) →
      ¬ ((line.data.takeWhile (fun c => isWsChar c)).length > 2 ∧
          ¬ st.currentParent = none) →
      (parseLine dp st line).tasks = st.tasks ++
        [mkCandidate st (jsTrimChars raw)
          (detectKeywordPriority dp ((jsTrimChars raw).map jsLowerChar))
          ((line.data.takeWhile (fun c => isWsChar c)).length)]) := by
  have hh2 := taskLineMatch_not_heading _ _ hmatch ['#']
  have hh3 := taskLineMatch_not_heading _ _ hmatch ['#', '#']
  constructor
  · intro hcond
    unfold parseLine
    simp only [hh2, hh3, hmatch]
    by_cases hlen : (jsTrimChars raw).length < 3
    · rw [if_pos hlen]
    · rcases hcond with hc | hc
      · exact absurd hc hlen
      · rw [if_neg hlen, if_pos hc]
  · intro hcond hsub
    have hlen : ¬ (jsTrimChars raw).length < 3 := fun hc => hcond (Or.inl hc)
    have hres : ¬ isReservedTitle (jsTrimChars raw) = true := fun hc => hcond (Or.inr hc)
    unfold parseLine
    simp only [hh2, hh3, hmatch]
    rw [if_neg hlen, if_neg hres, if_neg hsub]

/-- C8 (witness): a reserved-marker line leaves the parser state
unchanged, by the filter theorem at a concrete line. -/
theorem parseLine_filters_witness :
    parseLine "P2" {} "- note: see docs" = {} :=
  (parseLine_filters "P2" {} "- note: see docs" "note: see docs".data
    (by decide)).1 (Or.inr (by decide))

end ProjectMcp
